import Mathlib

/-!
Verification development for the vvp class-type engine
(`vvp/class_type.cc`): property kinds, the size-bucketed layout
algorithm of `class_type::finish_setup`, instance construction and the
typed accessors, and the compile-time registration protocol
(`compile_class_start` / `compile_class_property` / `compile_class_done`).

The C++ heap buffer of an instance is modelled as a `List byte_v`;
fixed-width integers stored through `reinterpret_cast<T*>` are modelled
as little-endian byte strings, and the non-trivial `std::string` /
`vvp_object_t` members placement-constructed into the buffer are
modelled as a head byte carrying the abstract value plus padding bytes
filling the rest of the member's footprint.  A C++ `assert` failure
(process abort) is modelled as `Option.none`.
-/

set_option maxHeartbeats 1000000

/-- The property kinds of the engine, one per concrete subclass built in
`class_type::set_property` (class_type.cc:269-292): `property_atom` over
the eight fixed-width integer types, `property_real`,
`property_string`, `property_object`.  Constructor names follow the
compile-time type tags. -/
inductive property_kind : Type
  | b8
  | b16
  | b32
  | b64
  | sb8
  | sb16
  | sb32
  | sb64
  | r
  | S
  | o
deriving DecidableEq, Repr

/-- Modelled from the spec: the byte size of the `std::string`
representation used by `property_string::instance_size`
(class_type.cc:161) is implementation-fixed; the spec treats it as a
constant per kind, so we fix the reference platform's value. -/
def string_instance_size : Nat := 32

/-- Modelled from the spec: the byte size of the `vvp_object_t` handle
used by `property_object::instance_size` (class_type.cc:181) is
implementation-fixed; the spec treats it as a constant per kind. -/
def object_instance_size : Nat := 8

/-- Byte size of one slot of each kind: `sizeof(T)` as returned by the
`instance_size` virtual of each property class
(class_type.cc:127,144,161,181). -/
def property_kind.instance_size : property_kind → Nat
  | .b8 => 1
  | .b16 => 2
  | .b32 => 4
  | .b64 => 8
  | .sb8 => 1
  | .sb16 => 2
  | .sb32 => 4
  | .sb64 => 8
  | .r => 8
  | .S => string_instance_size
  | .o => object_instance_size

/-- Whether the kind is one of the `property_atom<T>` instantiations,
i.e. the kinds whose class overrides `set_vec4`/`get_vec4`
(class_type.cc:122-137). -/
def property_kind.is_atom : property_kind → Bool
  | .b8 => true
  | .b16 => true
  | .b32 => true
  | .b64 => true
  | .sb8 => true
  | .sb16 => true
  | .sb32 => true
  | .sb64 => true
  | .r => false
  | .S => false
  | .o => false

/-- The if-chain of `class_type::set_property` (class_type.cc:269-292)
mapping a type tag to a property class; an unrecognized tag yields the
null pointer, modelled as `none`. -/
def kind_of_type_tag (type : String) : Option property_kind :=
  if type = "b8" then some property_kind.b8
  else if type = "b16" then some property_kind.b16
  else if type = "b32" then some property_kind.b32
  else if type = "b64" then some property_kind.b64
  else if type = "sb8" then some property_kind.sb8
  else if type = "sb16" then some property_kind.sb16
  else if type = "sb32" then some property_kind.sb32
  else if type = "sb64" then some property_kind.sb64
  else if type = "r" then some property_kind.r
  else if type = "S" then some property_kind.S
  else if type = "o" then some property_kind.o
  else none

/-- The list of slot byte sizes of a class, indexed by declaration
order (property id). -/
def size_list (kinds : List property_kind) : List Nat :=
  kinds.map property_kind.instance_size

/-- The distinct sizes occurring in `sizes`, in descending order: the
keys of the `std::map<size_t, vector<size_t>> size_map` of
`class_type::finish_setup` (class_type.cc:297), traversed `rbegin` to
`rend` (class_type.cc:314-315).  `std::map` iterates keys in ascending
order, so the reverse traversal visits them descending. -/
def size_keys_desc (sizes : List Nat) : List Nat :=
  ((List.range (sizes.foldr max 0 + 1)).filter (fun s => sizes.contains s)).reverse

/-- The bucket of property ids whose slot size is `s`: the
`vector<size_t>` stored under key `s` in `size_map`, in declaration
order because `finish_setup`'s first loop pushes ids in increasing
order (class_type.cc:301-306). -/
def size_bucket (sizes : List Nat) (s : Nat) : List Nat :=
  (List.range sizes.length).filter (fun i => sizes.getD i 0 == s)

/-- The order in which `finish_setup`'s second loop visits property
ids: buckets in descending size order, declaration order inside a
bucket (class_type.cc:314-323). -/
def layout_order (sizes : List Nat) : List Nat :=
  (size_keys_desc sizes).flatMap (size_bucket sizes)

/-- The offset-assignment loop of `finish_setup` (class_type.cc:313-323):
walk the property ids in layout order, giving each the running
accumulator as offset and advancing it by the slot's size.  Returns the
association list property id to offset. -/
def assign_offsets (sizes : List Nat) : List Nat → Nat → List (Nat × Nat)
  | [], _ => []
  | i :: rest, accum => (i, accum) :: assign_offsets sizes rest (accum + sizes.getD i 0)

/-- The size-accumulation loop of `finish_setup`'s first pass
(class_type.cc:300-306): `accum += instance_size` over all properties. -/
def size_accum : List Nat → Nat → Nat
  | [], accum => accum
  | s :: rest, accum => size_accum rest (accum + s)

/-- A frozen class definition: the state of a `class_type` object after
`finish_setup` has run, with every property's kind, the offsets
recorded by `set_offset`, and `instance_size_`. -/
structure class_type : Type where
  kinds : List property_kind
  offset_table : List (Nat × Nat)
  instance_size : Nat
deriving DecidableEq, Repr

/-- The computation `class_type::finish_setup` performs on a class all
of whose property types are resolved (class_type.cc:295-324). -/
def freeze_layout (kinds : List property_kind) : class_type :=
  { kinds := kinds
    offset_table := assign_offsets (size_list kinds) (layout_order (size_list kinds)) 0
    instance_size := size_accum (size_list kinds) 0 }

/-- The per-property `assert(properties_[idx].type)` of `finish_setup`
(class_type.cc:302): every slot's kind must be resolved, a null type
pointer is fatal. -/
def resolve_kinds : List (String × Option property_kind) → Option (List property_kind)
  | [] => some []
  | (_, some k) :: rest => (resolve_kinds rest).map (fun ks => k :: ks)
  | (_, none) :: _ => none

/-- `class_type::finish_setup` (class_type.cc:295-324) acting on the
declared properties: fatal if any kind is unresolved, otherwise the
frozen layout. -/
def finish_setup (props : List (String × Option property_kind)) : Option class_type :=
  (resolve_kinds props).map freeze_layout

/-- The byte offset recorded for property id `i` by `set_offset`
(class_type.cc:44,320). -/
def slot_offset (L : class_type) (i : Nat) : Nat :=
  (L.offset_table.lookup i).getD 0

/-- The byte size of property id `i` of a frozen class. -/
def slot_size (L : class_type) (i : Nat) : Nat :=
  (size_list L.kinds).getD i 0

/-- One byte of an instance buffer.  A raw numeric byte models the
bytes of an integer or real member; the head byte of a
placement-constructed `std::string` or `vvp_object_t` carries its
abstract value, the remaining bytes of its footprint are `pad`. -/
inductive byte_v : Type
  | num (b : Nat)
  | str_obj (s : String)
  | obj_obj (hd : Nat)
  | pad
  | uninit
deriving DecidableEq, Repr

/-- Store a string of bytes into the buffer starting at offset `off`:
the effect of a `*tmp = val` store through
`reinterpret_cast<T*>(buf+offset_)`. -/
def write_bytes : List byte_v → Nat → List byte_v → List byte_v
  | buf, _, [] => buf
  | buf, off, v :: rest => write_bytes (buf.set off v) (off + 1) rest

/-- Read `len` bytes from the buffer starting at offset `off`. -/
def read_bytes : List byte_v → Nat → Nat → List byte_v
  | _, _, 0 => []
  | buf, off, len + 1 => buf.getD off byte_v.uninit :: read_bytes buf (off + 1) len

/-- The little-endian byte string of a width-`s` integer value, as laid
down in memory by storing through a `T*`. -/
def nat_to_bytes : Nat → Nat → List byte_v
  | 0, _ => []
  | s + 1, v => byte_v.num (v % 256) :: nat_to_bytes s (v / 256)

/-- Reassemble an integer from little-endian raw bytes; reading a byte
that is not a raw numeric byte is reading an object through the wrong
type, undefined behaviour, modelled as `none`. -/
def bytes_to_num : List byte_v → Option Nat
  | [] => some 0
  | byte_v.num b :: rest => (bytes_to_num rest).map (fun v => b + 256 * v)
  | _ => none

/-- One digit of the simulator's four-state logic: 0, 1, X or Z. -/
inductive bit4 : Type
  | b0
  | b1
  | bx
  | bz
deriving DecidableEq, Repr

/-- A digit is concrete (defined) when it is 0 or 1. -/
def bit4.is_defined : bit4 → Bool
  | .b0 => true
  | .b1 => true
  | .bx => false
  | .bz => false

/-- The unsigned value of a four-state vector all of whose digits are
concrete, least significant digit first. -/
def vec4_val : List bit4 → Nat
  | [] => 0
  | d :: rest => (if d = bit4.b1 then 1 else 0) + 2 * vec4_val rest

/-- Modelled from the spec: `vector4_to_value` (declared in the VM's
headers, not among the shown sources) converts a four-state vector to
the fixed-width integer stored in a `property_atom<T>` cell; any digit
outside 0/1 makes it report failure, which `set_vec4` turns into a
fatal `assert` (class_type.cc:199-200).  The `width` is the bit width
`8 * sizeof(T)` of the destination. -/
def vector4_to_value (width : Nat) (val : List bit4) : Option Nat :=
  if val.all bit4.is_defined then some (vec4_val val % 2 ^ width) else none

/-- The four-state vector of width `w` whose digit `k` is bit `k` of
`v`: the vector built by `get_vec4` through `resize`/`setarray`
(class_type.cc:215-216), which exports the stored integer as a vector
of width `8 * sizeof(T)`. -/
def nat_to_vec4 : Nat → Nat → List bit4
  | 0, _ => []
  | w + 1, v => (if v % 2 = 1 then bit4.b1 else bit4.b0) :: nat_to_vec4 w (v / 2)

/-- The bytes written into a slot's footprint by the kind's
`construct` override: `property_atom<T>::construct` and
`property_real<T>::construct` zero the member
(class_type.cc:130-133,147-150), `property_string::construct` and
`property_object::construct` placement-construct an empty string
resp. nil handle (class_type.cc:164-165,184-185). -/
def construct_bytes (k : property_kind) : List byte_v :=
  if k.is_atom then nat_to_bytes k.instance_size 0
  else match k with
  | .r => nat_to_bytes 8 0
  | .S => byte_v.str_obj "" :: List.replicate (string_instance_size - 1) byte_v.pad
  | .o => byte_v.obj_obj 0 :: List.replicate (object_instance_size - 1) byte_v.pad
  | _ => []

/-- The virtual `construct` dispatched on the slot's kind; the default
`class_property_t::construct` is a no-op (class_type.cc:70-72), each
concrete kind overrides it to initialize its member in place. -/
def property_construct (k : property_kind) (off : Nat) (buf : List byte_v) : List byte_v :=
  write_bytes buf off (construct_bytes k)

/-- The virtual `set_vec4`: `property_atom<T>::set_vec4`
(class_type.cc:196-201) converts the vector and asserts that the
conversion succeeded; every other kind inherits
`class_property_t::set_vec4` which is `assert(0)` (class_type.cc:78-81). -/
def property_set_vec4 (k : property_kind) (off : Nat) (buf : List byte_v) (val : List bit4) :
    Option (List byte_v) :=
  if k.is_atom then
    match vector4_to_value (8 * k.instance_size) val with
    | some v => some (write_bytes buf off (nat_to_bytes k.instance_size v))
    | none => none
  else none

/-- The virtual `get_vec4`: `property_atom<T>::get_vec4`
(class_type.cc:203-217) reads the stored integer and exports it as a
vector of width `8 * sizeof(T)`; every other kind inherits the
`assert(0)` default (class_type.cc:83-86). -/
def property_get_vec4 (k : property_kind) (off : Nat) (buf : List byte_v) :
    Option (List bit4) :=
  if k.is_atom then
    (bytes_to_num (read_bytes buf off k.instance_size)).map (nat_to_vec4 (8 * k.instance_size))
  else none

/-- The virtual `set_real`: only `property_real<double>` overrides it
(class_type.cc:219-223); the double is modelled by its 64-bit pattern,
`0.0` being pattern `0`.  All other kinds hit the `assert(0)` default
(class_type.cc:88-91). -/
def property_set_real (k : property_kind) (off : Nat) (buf : List byte_v) (val : Nat) :
    Option (List byte_v) :=
  match k with
  | .r => some (write_bytes buf off (nat_to_bytes 8 val))
  | _ => none

/-- The virtual `get_real`: only `property_real<double>` overrides it
(class_type.cc:225-229); all other kinds hit the `assert(0)` default
(class_type.cc:93-97). -/
def property_get_real (k : property_kind) (off : Nat) (buf : List byte_v) : Option Nat :=
  match k with
  | .r => bytes_to_num (read_bytes buf off 8)
  | _ => none

/-- The virtual `set_string`: only `property_string` overrides it
(class_type.cc:231-235), assigning the string object living at the
slot's offset; all other kinds hit the `assert(0)` default
(class_type.cc:99-102). -/
def property_set_string (k : property_kind) (off : Nat) (buf : List byte_v) (val : String) :
    Option (List byte_v) :=
  match k with
  | .S => some (write_bytes buf off
      (byte_v.str_obj val :: List.replicate (string_instance_size - 1) byte_v.pad))
  | _ => none

/-- The virtual `get_string`: only `property_string` overrides it
(class_type.cc:237-241), reading the string object at the slot's
offset; all other kinds hit the `assert(0)` default
(class_type.cc:104-108). -/
def property_get_string (k : property_kind) (off : Nat) (buf : List byte_v) : Option String :=
  match k with
  | .S =>
    match buf.getD off byte_v.uninit with
    | byte_v.str_obj s => some s
    | _ => none
  | _ => none

/-- The virtual `set_object`: only `property_object` overrides it
(class_type.cc:243-247), copying the handle value; all other kinds hit
the `assert(0)` default (class_type.cc:110-113). -/
def property_set_object (k : property_kind) (off : Nat) (buf : List byte_v) (val : Nat) :
    Option (List byte_v) :=
  match k with
  | .o => some (write_bytes buf off
      (byte_v.obj_obj val :: List.replicate (object_instance_size - 1) byte_v.pad))
  | _ => none

/-- The virtual `get_object`: only `property_object` overrides it
(class_type.cc:249-253); all other kinds hit the `assert(0)` default
(class_type.cc:115-118). -/
def property_get_object (k : property_kind) (off : Nat) (buf : List byte_v) : Option Nat :=
  match k with
  | .o =>
    match buf.getD off byte_v.uninit with
    | byte_v.obj_obj hd => some hd
    | _ => none
  | _ => none

/-- The construction loop of `class_type::instance_new`
(class_type.cc:330-331): call `construct` for each property, in
declaration order. -/
def construct_all (L : class_type) : List Nat → List byte_v → List byte_v
  | [], buf => buf
  | pid :: rest, buf =>
    construct_all L rest (property_construct (L.kinds.getD pid property_kind.b8) (slot_offset L pid) buf)

/-- `class_type::instance_new` (class_type.cc:326-334): allocate
`instance_size_` raw bytes and run every property's `construct` in
declaration order. -/
def class_type.instance_new (L : class_type) : List byte_v :=
  construct_all L (List.range L.kinds.length) (List.replicate L.instance_size byte_v.uninit)

/-- `class_type::set_vec4` (class_type.cc:346-352): assert the property
id is in range, then dispatch to the property's virtual `set_vec4` on
the instance buffer. -/
def class_type.set_vec4 (L : class_type) (obj : List byte_v) (pid : Nat) (val : List bit4) :
    Option (List byte_v) :=
  match L.kinds[pid]? with
  | some k => property_set_vec4 k (slot_offset L pid) obj val
  | none => none

/-- `class_type::get_vec4` (class_type.cc:354-360). -/
def class_type.get_vec4 (L : class_type) (obj : List byte_v) (pid : Nat) : Option (List bit4) :=
  match L.kinds[pid]? with
  | some k => property_get_vec4 k (slot_offset L pid) obj
  | none => none

/-- `class_type::set_real` (class_type.cc:362-368). -/
def class_type.set_real (L : class_type) (obj : List byte_v) (pid : Nat) (val : Nat) :
    Option (List byte_v) :=
  match L.kinds[pid]? with
  | some k => property_set_real k (slot_offset L pid) obj val
  | none => none

/-- `class_type::get_real` (class_type.cc:370-375). -/
def class_type.get_real (L : class_type) (obj : List byte_v) (pid : Nat) : Option Nat :=
  match L.kinds[pid]? with
  | some k => property_get_real k (slot_offset L pid) obj
  | none => none

/-- `class_type::set_string` (class_type.cc:377-383). -/
def class_type.set_string (L : class_type) (obj : List byte_v) (pid : Nat) (val : String) :
    Option (List byte_v) :=
  match L.kinds[pid]? with
  | some k => property_set_string k (slot_offset L pid) obj val
  | none => none

/-- `class_type::get_string` (class_type.cc:385-390). -/
def class_type.get_string (L : class_type) (obj : List byte_v) (pid : Nat) : Option String :=
  match L.kinds[pid]? with
  | some k => property_get_string k (slot_offset L pid) obj
  | none => none

/-- `class_type::set_object` (class_type.cc:392-398). -/
def class_type.set_object (L : class_type) (obj : List byte_v) (pid : Nat) (val : Nat) :
    Option (List byte_v) :=
  match L.kinds[pid]? with
  | some k => property_set_object k (slot_offset L pid) obj val
  | none => none

/-- `class_type::get_object` (class_type.cc:400-405). -/
def class_type.get_object (L : class_type) (obj : List byte_v) (pid : Nat) : Option Nat :=
  match L.kinds[pid]? with
  | some k => property_get_object k (slot_offset L pid) obj
  | none => none

/-- A mutation request against one property: one of the four `set_*`
entry points of `class_type`. -/
inductive set_op : Type
  | vec4 (val : List bit4)
  | realv (val : Nat)
  | strv (val : String)
  | objv (val : Nat)
deriving DecidableEq, Repr

/-- Dispatch a mutation request to the corresponding `class_type`
`set_*` entry point. -/
def class_type.apply_set (L : class_type) (obj : List byte_v) (pid : Nat) :
    set_op → Option (List byte_v)
  | set_op.vec4 v => L.set_vec4 obj pid v
  | set_op.realv x => L.set_real obj pid x
  | set_op.strv s => L.set_string obj pid s
  | set_op.objv hd => L.set_object obj pid hd

/-- The value stored in one slot, as observed through the getter that
the slot's kind supports. -/
inductive slot_value : Type
  | vec (val : List bit4)
  | realv (val : Nat)
  | strv (val : String)
  | objv (val : Nat)
deriving DecidableEq, Repr

/-- Read property `pid` through the getter its kind supports. -/
def class_type.read_slot (L : class_type) (obj : List byte_v) (pid : Nat) : Option slot_value :=
  match L.kinds[pid]? with
  | none => none
  | some k =>
    if k.is_atom then (property_get_vec4 k (slot_offset L pid) obj).map slot_value.vec
    else match k with
    | .r => (property_get_real k (slot_offset L pid) obj).map slot_value.realv
    | .S => (property_get_string k (slot_offset L pid) obj).map slot_value.strv
    | .o => (property_get_object k (slot_offset L pid) obj).map slot_value.objv
    | _ => none

/-- A class definition under construction: the `class_type` object
between `compile_class_start` and `compile_class_done`, holding the
class name and the declared (name, type) slots, a null type pointer
modelled as `none`. -/
structure build_class : Type where
  name : String
  props : List (String × Option property_kind)
deriving DecidableEq, Repr

/-- The process-wide compile state: the single build-in-progress
pointer `static class_type* compile_class` (class_type.cc:412) and the
enclosing scope's `classes` registry keyed by class name
(class_type.cc:437), most recent entry first. -/
structure compile_state : Type where
  compile_class : Option build_class
  classes : List (String × class_type)
deriving DecidableEq, Repr

/-- `class_type::set_property` (class_type.cc:264-293): assert the
index is in range, then record the name and the type resolved from the
tag (null, i.e. `none`, for an unrecognized tag). -/
def set_property (props : List (String × Option property_kind)) (idx : Nat)
    (name type : String) : Option (List (String × Option property_kind)) :=
  if idx < props.length then some (props.set idx (name, kind_of_type_tag type)) else none

/-- `compile_class_start` (class_type.cc:414-421): fatal if a build is
already open (`assert(compile_class == 0)`), else open a build with
`ntype` empty property slots. -/
def compile_class_start (st : compile_state) (nam : String) (ntype : Nat) :
    Option compile_state :=
  match st.compile_class with
  | some _ => none
  | none => some { st with compile_class := some ⟨nam, List.replicate ntype ("", none)⟩ }

/-- `compile_class_property` (class_type.cc:423-429): fatal if no build
is open (`assert(compile_class)`), else declare slot `idx`. -/
def compile_class_property (st : compile_state) (idx : Nat) (nam typ : String) :
    Option compile_state :=
  match st.compile_class with
  | none => none
  | some b =>
    (set_property b.props idx nam typ).map
      (fun ps => { st with compile_class := some ⟨b.name, ps⟩ })

/-- `compile_class_done` (class_type.cc:431-439): fatal if no build is
open, else freeze the definition via `finish_setup`, publish it in the
scope's registry under the class name, and clear the
build-in-progress pointer. -/
def compile_class_done (st : compile_state) : Option compile_state :=
  match st.compile_class with
  | none => none
  | some b =>
    (finish_setup b.props).map
      (fun L => { compile_class := none, classes := (b.name, L) :: st.classes })

/-- Processing precedence of the layout loop: slot `i` is visited
before slot `j` when its size is strictly larger, or the sizes tie and
`i` was declared first. -/
def layout_lt (sizes : List Nat) (i j : Nat) : Prop :=
  sizes.getD j 0 < sizes.getD i 0 ∨ (sizes.getD i 0 = sizes.getD j 0 ∧ i < j)

lemma property_kind.instance_size_pos (k : property_kind) : 1 ≤ k.instance_size := by
  cases k <;> simp [property_kind.instance_size, string_instance_size, object_instance_size]

lemma mem_size_bucket {sizes : List Nat} {s i : Nat} :
    i ∈ size_bucket sizes s ↔ i < sizes.length ∧ sizes.getD i 0 = s := by
  simp [size_bucket, List.mem_filter, List.mem_range]

lemma le_foldr_max {sizes : List Nat} {s : Nat} (h : s ∈ sizes) : s ≤ sizes.foldr max 0 := by
  induction sizes with
  | nil => cases h
  | cons t rest ih =>
    simp only [List.foldr_cons]
    rcases List.mem_cons.mp h with rfl | h
    · exact Nat.le_max_left _ _
    · exact Nat.le_trans (ih h) (Nat.le_max_right _ _)

lemma mem_size_keys_desc {sizes : List Nat} {s : Nat} :
    s ∈ size_keys_desc sizes ↔ s ∈ sizes := by
  simp only [size_keys_desc, List.mem_reverse, List.mem_filter, List.mem_range]
  constructor
  · rintro ⟨-, h⟩
    simpa using h
  · intro h
    exact ⟨Nat.lt_succ_of_le (le_foldr_max h), by simpa using h⟩

lemma size_keys_desc_sorted (sizes : List Nat) :
    (size_keys_desc sizes).Pairwise (fun a b => b < a) := by
  unfold size_keys_desc
  rw [List.pairwise_reverse]
  exact (List.pairwise_lt_range _).filter _

lemma size_bucket_sorted (sizes : List Nat) (s : Nat) :
    (size_bucket sizes s).Pairwise (· < ·) :=
  (List.pairwise_lt_range _).filter _

lemma layout_order_pairwise (sizes : List Nat) :
    (layout_order sizes).Pairwise (layout_lt sizes) := by
  unfold layout_order
  rw [List.pairwise_flatMap]
  constructor
  · intro s _
    refine (size_bucket_sorted sizes s).imp_of_mem ?_
    intro i j hi hj hij
    exact Or.inr ⟨by rw [(mem_size_bucket.mp hi).2, (mem_size_bucket.mp hj).2], hij⟩
  · refine (size_keys_desc_sorted sizes).imp ?_
    intro s₁ s₂ h12 i hi j hj
    exact Or.inl (by rw [(mem_size_bucket.mp hi).2, (mem_size_bucket.mp hj).2]; exact h12)

lemma layout_order_nodup (sizes : List Nat) : (layout_order sizes).Nodup := by
  unfold layout_order
  rw [List.nodup_flatMap]
  constructor
  · intro s _
    exact (size_bucket_sorted sizes s).imp Nat.ne_of_lt
  · refine (size_keys_desc_sorted sizes).imp ?_
    intro s₁ s₂ h12 i hi hj
    have h1 := (mem_size_bucket.mp hi).2
    have h2 := (mem_size_bucket.mp hj).2
    omega

lemma mem_layout_order {sizes : List Nat} {i : Nat} :
    i ∈ layout_order sizes ↔ i < sizes.length := by
  unfold layout_order
  rw [List.mem_flatMap]
  constructor
  · rintro ⟨s, -, hi⟩
    exact (mem_size_bucket.mp hi).1
  · intro hi
    refine ⟨sizes.getD i 0, ?_, mem_size_bucket.mpr ⟨hi, rfl⟩⟩
    rw [mem_size_keys_desc, List.getD_eq_getElem _ _ hi]
    exact List.getElem_mem _

lemma layout_order_perm (sizes : List Nat) :
    (layout_order sizes).Perm (List.range sizes.length) := by
  rw [List.perm_ext_iff_of_nodup (layout_order_nodup sizes) (List.nodup_range _)]
  intro i
  rw [mem_layout_order, List.mem_range]

lemma assign_offsets_lookup (sizes : List Nat) :
    ∀ (order : List Nat) (a : Nat), order.Nodup →
      ∀ (p : Nat) (hp : p < order.length),
        (assign_offsets sizes order a).lookup (order.get ⟨p, hp⟩) =
          some (a + ((order.take p).map (fun j => sizes.getD j 0)).sum) := by
  intro order
  induction order with
  | nil => intro a _ p hp; cases hp
  | cons i rest ih =>
    intro a hnd p hp
    cases p with
    | zero => simp [assign_offsets, List.lookup_cons]
    | succ q =>
      have hq : q < rest.length := by simpa using hp
      have hmem : rest.get ⟨q, hq⟩ ∈ rest := List.get_mem rest q hq
      have hne : (rest.get ⟨q, hq⟩ == i) = false :=
        beq_eq_false_iff_ne.mpr (fun h => (List.nodup_cons.mp hnd).1 (h ▸ hmem))
      have ihq := ih (a + sizes.getD i 0) (List.nodup_cons.mp hnd).2 q hq
      simp only [assign_offsets, List.get_cons_succ, List.lookup_cons, hne]
      rw [ihq]
      simp only [List.take_succ_cons, List.map_cons, List.sum_cons, Option.some.injEq]
      omega

lemma size_accum_eq (l : List Nat) (a : Nat) : size_accum l a = a + l.sum := by
  induction l generalizing a with
  | nil => simp [size_accum]
  | cons x xs ih =>
    simp only [size_accum, ih, List.sum_cons]
    omega

lemma map_getD_range (l : List Nat) :
    (List.range l.length).map (fun j => l.getD j 0) = l := by
  apply List.ext_getElem
  · simp
  · intro i h1 h2
    simp only [List.getElem_map, List.getElem_range]
    exact List.getD_eq_getElem l 0 h2

lemma sum_take_succ_nat (l : List Nat) (p : Nat) (hp : p < l.length) :
    (l.take (p + 1)).sum = (l.take p).sum + l.get ⟨p, hp⟩ := by
  induction l generalizing p with
  | nil => cases hp
  | cons x xs ih =>
    cases p with
    | zero => simp
    | succ q =>
      have hq : q < xs.length := by simpa using hp
      have hih := ih q hq
      simp only [List.take_succ_cons, List.sum_cons, List.get_cons_succ, hih]
      omega

lemma sum_take_mono (l : List Nat) {p q : Nat} (hpq : p ≤ q) :
    (l.take p).sum ≤ (l.take q).sum := by
  have hq : q = p + (q - p) := by omega
  rw [hq, List.take_add, List.sum_append]
  exact Nat.le_add_right _ _

lemma slot_size_freeze (kinds : List property_kind) (i : Nat) :
    slot_size (freeze_layout kinds) i = (size_list kinds).getD i 0 := rfl

lemma size_list_length (kinds : List property_kind) :
    (size_list kinds).length = kinds.length := List.length_map _ _

lemma size_list_getD_pos (kinds : List property_kind) {i : Nat} (hi : i < kinds.length) :
    1 ≤ (size_list kinds).getD i 0 := by
  rw [List.getD_eq_getElem _ _ (by simpa [size_list_length] using hi)]
  simp only [size_list, List.getElem_map]
  exact property_kind.instance_size_pos _

lemma slot_size_pos (kinds : List property_kind) {i : Nat} (hi : i < kinds.length) :
    1 ≤ slot_size (freeze_layout kinds) i := by
  rw [slot_size_freeze]
  exact size_list_getD_pos kinds hi

lemma freeze_instance_size (kinds : List property_kind) :
    (freeze_layout kinds).instance_size = (size_list kinds).sum := by
  simp [freeze_layout, size_accum_eq]

lemma slot_offset_position (kinds : List property_kind) (p : Nat)
    (hp : p < (layout_order (size_list kinds)).length) :
    slot_offset (freeze_layout kinds) ((layout_order (size_list kinds)).get ⟨p, hp⟩) =
      (((layout_order (size_list kinds)).take p).map (fun j => (size_list kinds).getD j 0)).sum := by
  unfold slot_offset freeze_layout
  simp only
  rw [assign_offsets_lookup (size_list kinds) _ 0 (layout_order_nodup _) p hp]
  simp

lemma exists_position (kinds : List property_kind) {i : Nat} (hi : i < kinds.length) :
    ∃ p : Fin (layout_order (size_list kinds)).length,
      (layout_order (size_list kinds)).get p = i := by
  have hmem : i ∈ layout_order (size_list kinds) := by
    rw [mem_layout_order, size_list_length]
    exact hi
  obtain ⟨n, hn, he⟩ := List.mem_iff_getElem.mp hmem
  exact ⟨⟨n, hn⟩, he⟩

lemma layout_order_get_lt (kinds : List property_kind) {p : Nat}
    (hp : p < (layout_order (size_list kinds)).length) :
    (layout_order (size_list kinds)).get ⟨p, hp⟩ < kinds.length := by
  have hmem := List.get_mem (layout_order (size_list kinds)) p hp
  rw [mem_layout_order, size_list_length] at hmem
  exact hmem

lemma layout_order_map_sum (kinds : List property_kind) :
    ((layout_order (size_list kinds)).map (fun j => (size_list kinds).getD j 0)).sum =
      (size_list kinds).sum := by
  have hperm := (layout_order_perm (size_list kinds)).map (fun j => (size_list kinds).getD j 0)
  rw [hperm.sum_eq, map_getD_range]

lemma offset_range_le_of_position_lt (kinds : List property_kind) {p q : Nat}
    (hp : p < (layout_order (size_list kinds)).length)
    (hq : q < (layout_order (size_list kinds)).length) (hpq : p < q) :
    slot_offset (freeze_layout kinds) ((layout_order (size_list kinds)).get ⟨p, hp⟩) +
      slot_size (freeze_layout kinds) ((layout_order (size_list kinds)).get ⟨p, hp⟩) ≤
    slot_offset (freeze_layout kinds) ((layout_order (size_list kinds)).get ⟨q, hq⟩) := by
  rw [slot_offset_position, slot_offset_position, slot_size_freeze]
  rw [List.map_take, List.map_take]
  have hlen : p < ((layout_order (size_list kinds)).map (fun j => (size_list kinds).getD j 0)).length := by
    simpa using hp
  have hget : ((layout_order (size_list kinds)).map (fun j => (size_list kinds).getD j 0)).get ⟨p, hlen⟩ =
      (size_list kinds).getD ((layout_order (size_list kinds)).get ⟨p, hp⟩) 0 := by
    simp
  rw [← hget, ← sum_take_succ_nat _ p hlen]
  exact sum_take_mono _ hpq

lemma slot_range_le_instance_size (kinds : List property_kind) {i : Nat}
    (hi : i < kinds.length) :
    slot_offset (freeze_layout kinds) i + slot_size (freeze_layout kinds) i ≤
      (freeze_layout kinds).instance_size := by
  obtain ⟨⟨p, hp⟩, hpe⟩ := exists_position kinds hi
  rw [← hpe]
  rw [slot_offset_position, slot_size_freeze]
  rw [List.map_take]
  have hlen : p < ((layout_order (size_list kinds)).map (fun j => (size_list kinds).getD j 0)).length := by
    simpa using hp
  have hget : ((layout_order (size_list kinds)).map (fun j => (size_list kinds).getD j 0)).get ⟨p, hlen⟩ =
      (size_list kinds).getD ((layout_order (size_list kinds)).get ⟨p, hp⟩) 0 := by
    simp
  rw [← hget, ← sum_take_succ_nat _ p hlen]
  have hmono := sum_take_mono ((layout_order (size_list kinds)).map (fun j => (size_list kinds).getD j 0))
    (Nat.le_of_lt_succ (Nat.succ_lt_succ hlen))
  rw [List.take_length] at hmono
  rw [freeze_instance_size, ← layout_order_map_sum]
  exact hmono

lemma slot_ranges_disjoint (kinds : List property_kind) {i j : Nat}
    (hi : i < kinds.length) (hj : j < kinds.length) (hij : i ≠ j) :
    slot_offset (freeze_layout kinds) i + slot_size (freeze_layout kinds) i ≤
        slot_offset (freeze_layout kinds) j ∨
      slot_offset (freeze_layout kinds) j + slot_size (freeze_layout kinds) j ≤
        slot_offset (freeze_layout kinds) i := by
  obtain ⟨⟨p, hp⟩, hpe⟩ := exists_position kinds hi
  obtain ⟨⟨q, hq⟩, hqe⟩ := exists_position kinds hj
  rcases Nat.lt_trichotomy p q with h | h | h
  · left
    rw [← hpe, ← hqe]
    exact offset_range_le_of_position_lt kinds hp hq h
  · exact absurd (by subst h; rw [← hpe, ← hqe]) hij
  · right
    rw [← hpe, ← hqe]
    exact offset_range_le_of_position_lt kinds hq hp h

lemma layout_lt_asymm {sizes : List Nat} {i j : Nat}
    (h1 : layout_lt sizes i j) (h2 : layout_lt sizes j i) : False := by
  unfold layout_lt at h1 h2
  omega

lemma slot_offset_lt_of_position_lt (kinds : List property_kind) {p q : Nat}
    (hp : p < (layout_order (size_list kinds)).length)
    (hq : q < (layout_order (size_list kinds)).length) (hpq : p < q) :
    slot_offset (freeze_layout kinds) ((layout_order (size_list kinds)).get ⟨p, hp⟩) <
      slot_offset (freeze_layout kinds) ((layout_order (size_list kinds)).get ⟨q, hq⟩) := by
  have hrange := offset_range_le_of_position_lt kinds hp hq hpq
  have hpos := slot_size_pos kinds (layout_order_get_lt kinds hp)
  omega

lemma slot_offset_lt_iff_layout_lt (kinds : List property_kind) {i j : Nat}
    (hi : i < kinds.length) (hj : j < kinds.length) (hij : i ≠ j) :
    slot_offset (freeze_layout kinds) i < slot_offset (freeze_layout kinds) j ↔
      layout_lt (size_list kinds) i j := by
  obtain ⟨⟨p, hp⟩, hpe⟩ := exists_position kinds hi
  obtain ⟨⟨q, hq⟩, hqe⟩ := exists_position kinds hj
  have hpair := List.pairwise_iff_get.mp (layout_order_pairwise (size_list kinds))
  constructor
  · intro hlt
    rcases Nat.lt_trichotomy p q with h | h | h
    · have hr := hpair ⟨p, hp⟩ ⟨q, hq⟩ h
      rwa [hpe, hqe] at hr
    · exact absurd (by subst h; rw [← hpe, ← hqe]) hij
    · have hr := slot_offset_lt_of_position_lt kinds hq hp h
      rw [hpe, hqe] at hr
      omega
  · intro hll
    rcases Nat.lt_trichotomy p q with h | h | h
    · have hr := slot_offset_lt_of_position_lt kinds hp hq h
      rwa [hpe, hqe] at hr
    · exact absurd (by subst h; rw [← hpe, ← hqe]) hij
    · have hr := hpair ⟨q, hq⟩ ⟨p, hp⟩ h
      rw [hpe, hqe] at hr
      exact (layout_lt_asymm hll hr).elim

lemma offsets_contiguous_position (kinds : List property_kind) {p : Nat}
    (hp1 : p + 1 < (layout_order (size_list kinds)).length) :
    slot_offset (freeze_layout kinds) ((layout_order (size_list kinds)).get ⟨p + 1, hp1⟩) =
      slot_offset (freeze_layout kinds)
          ((layout_order (size_list kinds)).get ⟨p, Nat.lt_of_succ_lt hp1⟩) +
        slot_size (freeze_layout kinds)
          ((layout_order (size_list kinds)).get ⟨p, Nat.lt_of_succ_lt hp1⟩) := by
  rw [slot_offset_position, slot_offset_position, slot_size_freeze]
  rw [List.map_take, List.map_take]
  have hlen : p < ((layout_order (size_list kinds)).map (fun j => (size_list kinds).getD j 0)).length := by
    simpa using Nat.lt_of_succ_lt hp1
  have hget : ((layout_order (size_list kinds)).map (fun j => (size_list kinds).getD j 0)).get ⟨p, hlen⟩ =
      (size_list kinds).getD ((layout_order (size_list kinds)).get ⟨p, Nat.lt_of_succ_lt hp1⟩) 0 := by
    simp
  rw [← hget, ← sum_take_succ_nat _ p hlen]

lemma slot_offset_ne (kinds : List property_kind) {i j : Nat}
    (hi : i < kinds.length) (hj : j < kinds.length) (hij : i ≠ j) :
    slot_offset (freeze_layout kinds) i ≠ slot_offset (freeze_layout kinds) j := by
  intro he
  have hsi := slot_size_pos kinds hi
  have hsj := slot_size_pos kinds hj
  rcases slot_ranges_disjoint kinds hi hj hij with h | h <;> omega

lemma finish_setup_some {props : List (String × Option property_kind)} {L : class_type}
    (h : finish_setup props = some L) :
    ∃ ks, resolve_kinds props = some ks ∧ L = freeze_layout ks := by
  unfold finish_setup at h
  rcases Option.map_eq_some'.mp h with ⟨ks, h1, h2⟩
  exact ⟨ks, h1, h2.symm⟩

lemma resolve_kinds_map_snd :
    ∀ {props : List (String × Option property_kind)} {ks : List property_kind},
      resolve_kinds props = some ks → props.map Prod.snd = ks.map some := by
  intro props
  induction props with
  | nil =>
    intro ks h
    simp only [resolve_kinds, Option.some.injEq] at h
    subst h
    rfl
  | cons pr rest ih =>
    intro ks h
    match pr, h with
    | (nm, some k), h => ?_
    | (nm, none), h => exact absurd h (by simp [resolve_kinds])
    simp only [resolve_kinds] at h
    rcases Option.map_eq_some'.mp h with ⟨ks2, h1, h2⟩
    subst h2
    simp only [List.map_cons]
    exact congrArg (List.cons (some k)) (ih h1)

lemma resolve_kinds_none :
    ∀ {props : List (String × Option property_kind)},
      (∃ pr ∈ props, pr.2 = none) → resolve_kinds props = none := by
  intro props
  induction props with
  | nil =>
    rintro ⟨pr, hmem, -⟩
    cases hmem
  | cons hd rest ih =>
    rintro ⟨pr, hmem, hnone⟩
    match hd with
    | (nm, none) => rfl
    | (nm, some k) =>
      rcases List.mem_cons.mp hmem with rfl | hmem2
      · cases hnone
      · simp only [resolve_kinds, ih ⟨pr, hmem2, hnone⟩, Option.map_none']

/-- C1: on the class declared with slots of sizes 1, 8, 4 in that order,
`finish_setup` puts the 8-byte slot at offset 0, the 4-byte slot at
offset 8, the 1-byte slot at offset 12, with total instance size 13;
and in general the offset order agrees with the processing key
(descending size, then declaration order), adjacent slots in processing
order being packed contiguously with no gap. -/
theorem layout_determinism (kinds : List property_kind) (i j p : Nat)
    (hi : i < kinds.length) (hj : j < kinds.length) (hij : i ≠ j)
    (hp : p + 1 < (layout_order (size_list kinds)).length) :
    (slot_offset (freeze_layout [property_kind.b8, property_kind.b64, property_kind.b32]) 1 = 0 ∧
     slot_offset (freeze_layout [property_kind.b8, property_kind.b64, property_kind.b32]) 2 = 8 ∧
     slot_offset (freeze_layout [property_kind.b8, property_kind.b64, property_kind.b32]) 0 = 12 ∧
     (freeze_layout [property_kind.b8, property_kind.b64, property_kind.b32]).instance_size = 13) ∧
    (slot_offset (freeze_layout kinds) i < slot_offset (freeze_layout kinds) j ↔
      layout_lt (size_list kinds) i j) ∧
    slot_offset (freeze_layout kinds) ((layout_order (size_list kinds)).get ⟨p + 1, hp⟩) =
      slot_offset (freeze_layout kinds)
          ((layout_order (size_list kinds)).get ⟨p, Nat.lt_of_succ_lt hp⟩) +
        slot_size (freeze_layout kinds)
          ((layout_order (size_list kinds)).get ⟨p, Nat.lt_of_succ_lt hp⟩) :=
  ⟨by decide,
   slot_offset_lt_iff_layout_lt kinds hi hj hij,
   offsets_contiguous_position kinds hp⟩

theorem layout_determinism_witness :
    slot_offset (freeze_layout [property_kind.b8, property_kind.b64, property_kind.b32]) 1 = 0 ∧
    slot_offset (freeze_layout [property_kind.b8, property_kind.b64, property_kind.b32]) 2 = 8 ∧
    slot_offset (freeze_layout [property_kind.b8, property_kind.b64, property_kind.b32]) 0 = 12 ∧
    (freeze_layout [property_kind.b8, property_kind.b64, property_kind.b32]).instance_size = 13 ∧
    (slot_offset (freeze_layout [property_kind.b8, property_kind.b64, property_kind.b32]) 1 <
        slot_offset (freeze_layout [property_kind.b8, property_kind.b64, property_kind.b32]) 2 ↔
      layout_lt (size_list [property_kind.b8, property_kind.b64, property_kind.b32]) 1 2) :=
  have h := layout_determinism [property_kind.b8, property_kind.b64, property_kind.b32] 1 2 0
    (by decide) (by decide) (by decide) (by decide)
  ⟨h.1.1, h.1.2.1, h.1.2.2.1, h.1.2.2.2, h.2.1⟩

/-- C2: whenever `finish_setup` succeeds, the resulting definition's
kinds are exactly the declared slot kinds and its `instance_size` is
the plain sum of all slot byte sizes — no alignment padding is ever
added, for every combination of kinds. -/
theorem size_additivity (props : List (String × Option property_kind)) (L : class_type)
    (h : finish_setup props = some L) :
    props.map Prod.snd = L.kinds.map some ∧
    L.instance_size = (L.kinds.map property_kind.instance_size).sum := by
  rcases finish_setup_some h with ⟨ks, h1, h2⟩
  subst h2
  exact ⟨resolve_kinds_map_snd h1, freeze_instance_size ks⟩

theorem size_additivity_witness :
    [("a", some property_kind.b64), ("b", some property_kind.S),
        ("c", some property_kind.b8)].map Prod.snd =
      (freeze_layout [property_kind.b64, property_kind.S, property_kind.b8]).kinds.map some ∧
    (freeze_layout [property_kind.b64, property_kind.S, property_kind.b8]).instance_size =
      ((freeze_layout [property_kind.b64, property_kind.S, property_kind.b8]).kinds.map
        property_kind.instance_size).sum :=
  size_additivity
    [("a", some property_kind.b64), ("b", some property_kind.S), ("c", some property_kind.b8)]
    (freeze_layout [property_kind.b64, property_kind.S, property_kind.b8]) (by decide)

/-- C3: for every frozen class definition and every slot, the slot's
offset lies in `[0, instance_size)` and its byte range fits inside the
instance; and for any second distinct slot the offsets differ and the
two byte ranges are disjoint. -/
theorem layout_invariants (props : List (String × Option property_kind)) (L : class_type)
    (h : finish_setup props = some L) (i j : Nat) (hi : i < L.kinds.length) :
    slot_offset L i < L.instance_size ∧
    slot_offset L i + slot_size L i ≤ L.instance_size ∧
    (j < L.kinds.length → i ≠ j →
      slot_offset L i ≠ slot_offset L j ∧
      (slot_offset L i + slot_size L i ≤ slot_offset L j ∨
        slot_offset L j + slot_size L j ≤ slot_offset L i)) := by
  rcases finish_setup_some h with ⟨ks, -, h2⟩
  subst h2
  have hki : i < ks.length := hi
  have hb := slot_range_le_instance_size ks hki
  have hs := slot_size_pos ks hki
  refine ⟨by omega, hb, fun hj hij => ?_⟩
  have hkj : j < ks.length := hj
  exact ⟨slot_offset_ne ks hki hkj hij, slot_ranges_disjoint ks hki hkj hij⟩

theorem layout_invariants_witness :
    slot_offset (freeze_layout [property_kind.b64]) 0 <
      (freeze_layout [property_kind.b64]).instance_size ∧
    slot_offset (freeze_layout [property_kind.b8, property_kind.b32]) 0 <
      (freeze_layout [property_kind.b8, property_kind.b32]).instance_size ∧
    slot_offset (freeze_layout [property_kind.b8, property_kind.b32]) 0 +
        slot_size (freeze_layout [property_kind.b8, property_kind.b32]) 0 ≤
      (freeze_layout [property_kind.b8, property_kind.b32]).instance_size ∧
    slot_offset (freeze_layout [property_kind.b8, property_kind.b32]) 0 ≠
      slot_offset (freeze_layout [property_kind.b8, property_kind.b32]) 1 ∧
    (slot_offset (freeze_layout [property_kind.b8, property_kind.b32]) 0 +
          slot_size (freeze_layout [property_kind.b8, property_kind.b32]) 0 ≤
        slot_offset (freeze_layout [property_kind.b8, property_kind.b32]) 1 ∨
      slot_offset (freeze_layout [property_kind.b8, property_kind.b32]) 1 +
          slot_size (freeze_layout [property_kind.b8, property_kind.b32]) 1 ≤
        slot_offset (freeze_layout [property_kind.b8, property_kind.b32]) 0) :=
  have hone := layout_invariants [("a", some property_kind.b64)]
    (freeze_layout [property_kind.b64]) (by decide) 0 0 (by decide)
  have htwo := layout_invariants [("a", some property_kind.b8), ("b", some property_kind.b32)]
    (freeze_layout [property_kind.b8, property_kind.b32]) (by decide) 0 1 (by decide)
  have hpair := htwo.2.2 (by decide) (by decide)
  ⟨hone.1, htwo.1, htwo.2.1, hpair.1, hpair.2⟩

/-- C7: `set_property` with a type tag outside the recognized set
resolves no kind (the slot's type pointer stays null) yet succeeds at
that point, and a later `finish_setup` on a property list containing
any unresolved kind is fatal. -/
theorem unknown_tag_fatal_at_freeze (t : String)
    (ht : t ∉ ["b8", "b16", "b32", "b64", "sb8", "sb16", "sb32", "sb64", "r", "S", "o"])
    (props : List (String × Option property_kind)) (idx : Nat) (nm : String)
    (hidx : idx < props.length)
    (props₂ : List (String × Option property_kind)) (hnone : ∃ pr ∈ props₂, pr.2 = none) :
    kind_of_type_tag t = none ∧
    set_property props idx nm t = some (props.set idx (nm, none)) ∧
    finish_setup props₂ = none := by
  have hts : kind_of_type_tag t = none := by
    simp only [List.mem_cons, List.not_mem_nil, or_false, not_or] at ht
    obtain ⟨h1, h2, h3, h4, h5, h6, h7, h8, h9, h10, h11⟩ := ht
    simp [kind_of_type_tag, h1, h2, h3, h4, h5, h6, h7, h8, h9, h10, h11]
  refine ⟨hts, ?_, ?_⟩
  · simp [set_property, hidx, hts]
  · simp [finish_setup, resolve_kinds_none hnone]

theorem unknown_tag_fatal_at_freeze_witness :
    kind_of_type_tag "b128" = none ∧
    set_property [("a", some property_kind.b8)] 0 "x" "b128" =
      some [("x", (none : Option property_kind))] ∧
    finish_setup [("y", (none : Option property_kind))] = none :=
  unknown_tag_fatal_at_freeze "b128" (by decide) [("a", some property_kind.b8)] 0 "x"
    (by decide) [("y", none)] ⟨("y", none), by decide, rfl⟩

/-- C8: `compile_class_start` while a build is open is fatal, and a
successful `compile_class_done` clears the build-in-progress slot,
after which `compile_class_start` succeeds again; so in any sequence of
registration calls at most one build is ever open. -/
theorem single_build_invariant (st : compile_state) (b : build_class) (nm : String) (n : Nat) :
    (st.compile_class = some b → compile_class_start st nm n = none) ∧
    (∀ st₂, compile_class_done st = some st₂ →
      st₂.compile_class = none ∧ (compile_class_start st₂ nm n).isSome) := by
  constructor
  · intro h
    simp [compile_class_start, h]
  · intro st₂ h
    unfold compile_class_done at h
    match hc : st.compile_class with
    | none => rw [hc] at h; cases h
    | some b₂ =>
      rw [hc] at h
      rcases Option.map_eq_some'.mp h with ⟨L, -, h2⟩
      subst h2
      exact ⟨rfl, by simp [compile_class_start]⟩

theorem single_build_invariant_witness :
    compile_class_start
        ⟨some ⟨"x", [("p", some property_kind.b8)]⟩, []⟩ "z" 1 = none ∧
    (compile_state.mk none [("x", freeze_layout [property_kind.b8])]).compile_class = none ∧
    (compile_class_start
        (compile_state.mk none [("x", freeze_layout [property_kind.b8])]) "z" 1).isSome :=
  have h := single_build_invariant
    ⟨some ⟨"x", [("p", some property_kind.b8)]⟩, []⟩ ⟨"x", [("p", some property_kind.b8)]⟩ "z" 1
  have h2 := h.2 (compile_state.mk none [("x", freeze_layout [property_kind.b8])]) (by decide)
  ⟨h.1 rfl, h2.1, h2.2⟩

lemma write_bytes_length :
    ∀ (bs buf : List byte_v) (off : Nat), (write_bytes buf off bs).length = buf.length := by
  intro bs
  induction bs with
  | nil => intro buf off; rfl
  | cons v rest ih =>
    intro buf off
    simp only [write_bytes, ih, List.length_set]

lemma getD_set_ne (l : List byte_v) (i a : Nat) (v d : byte_v) (h : i ≠ a) :
    (l.set i v).getD a d = l.getD a d := by
  simp [List.getD_eq_getElem?_getD, List.getElem?_set_ne h]

lemma write_bytes_frame :
    ∀ (bs buf : List byte_v) (off a : Nat), (a < off ∨ off + bs.length ≤ a) →
      (write_bytes buf off bs).getD a byte_v.uninit = buf.getD a byte_v.uninit := by
  intro bs
  induction bs with
  | nil => intro buf off a _; rfl
  | cons v rest ih =>
    intro buf off a ha
    simp only [List.length_cons] at ha
    have h1 : a < off + 1 ∨ off + 1 + rest.length ≤ a := by omega
    have h2 : off ≠ a := by omega
    simp only [write_bytes]
    rw [ih _ _ _ h1, getD_set_ne _ _ _ _ _ h2]

lemma getD_set_self (l : List byte_v) (i : Nat) (v d : byte_v) (h : i < l.length) :
    (l.set i v).getD i d = v := by
  simp [List.getD_eq_getElem?_getD, List.getElem?_set_self h]

lemma read_bytes_write_bytes_self :
    ∀ (bs buf : List byte_v) (off : Nat), off + bs.length ≤ buf.length →
      read_bytes (write_bytes buf off bs) off bs.length = bs := by
  intro bs
  induction bs with
  | nil => intro buf off _; rfl
  | cons v rest ih =>
    intro buf off hle
    simp only [List.length_cons] at hle
    simp only [write_bytes, List.length_cons, read_bytes]
    congr 1
    · rw [write_bytes_frame rest _ _ _ (Or.inl (Nat.lt_succ_self off))]
      exact getD_set_self buf off v byte_v.uninit (by omega)
    · exact ih (buf.set off v) (off + 1) (by simp [List.length_set]; omega)

lemma read_bytes_congr :
    ∀ (len : Nat) (b1 b2 : List byte_v) (off : Nat),
      (∀ a : Nat, off ≤ a → a < off + len →
        b1.getD a byte_v.uninit = b2.getD a byte_v.uninit) →
      read_bytes b1 off len = read_bytes b2 off len := by
  intro len
  induction len with
  | zero => intro b1 b2 off _; rfl
  | succ m ih =>
    intro b1 b2 off hagree
    simp only [read_bytes]
    congr 1
    · exact hagree off (Nat.le_refl off) (by omega)
    · exact ih b1 b2 (off + 1) (fun a h1 h2 => hagree a (by omega) (by omega))

lemma nat_to_bytes_length (s v : Nat) : (nat_to_bytes s v).length = s := by
  induction s generalizing v with
  | zero => rfl
  | succ m ih => simp [nat_to_bytes, ih]

lemma bytes_to_num_nat_to_bytes (s v : Nat) :
    bytes_to_num (nat_to_bytes s v) = some (v % 256 ^ s) := by
  induction s generalizing v with
  | zero => simp [nat_to_bytes, bytes_to_num, Nat.mod_one]
  | succ m ih =>
    simp only [nat_to_bytes, bytes_to_num, ih, Option.map_some']
    have : (256 : Nat) ^ (m + 1) = 256 * 256 ^ m := by ring
    rw [this, Nat.mod_mul]

lemma vec4_val_lt (v : List bit4) : vec4_val v < 2 ^ v.length := by
  induction v with
  | nil => simp [vec4_val]
  | cons d rest ih =>
    simp only [vec4_val, List.length_cons, pow_succ]
    rcases Decidable.em (d = bit4.b1) with h | h <;> simp [h] <;> omega

lemma nat_to_vec4_length (w v : Nat) : (nat_to_vec4 w v).length = w := by
  induction w generalizing v with
  | zero => rfl
  | succ m ih => simp [nat_to_vec4, ih]

lemma nat_to_vec4_vec4_val (v : List bit4) (hconc : v.all bit4.is_defined = true) :
    nat_to_vec4 v.length (vec4_val v) = v := by
  induction v with
  | nil => rfl
  | cons d rest ih =>
    simp only [List.all_cons, Bool.and_eq_true] at hconc
    have hrest := ih hconc.2
    have hv : vec4_val (d :: rest) = (if d = bit4.b1 then 1 else 0) + 2 * vec4_val rest := rfl
    cases d with
    | b0 =>
      rw [List.length_cons, hv, if_neg (show ¬ (bit4.b0 = bit4.b1) by simp)]
      simp only [nat_to_vec4]
      have h1 : ¬ ((0 + 2 * vec4_val rest) % 2 = 1) := by omega
      have h2 : (0 + 2 * vec4_val rest) / 2 = vec4_val rest := by omega
      rw [if_neg h1, h2, hrest]
    | b1 =>
      rw [List.length_cons, hv, if_pos rfl]
      simp only [nat_to_vec4]
      have h1 : (1 + 2 * vec4_val rest) % 2 = 1 := by omega
      have h2 : (1 + 2 * vec4_val rest) / 2 = vec4_val rest := by omega
      rw [h1, h2, if_pos rfl, hrest]
    | bx => simp [bit4.is_defined] at hconc
    | bz => simp [bit4.is_defined] at hconc

lemma nat_to_vec4_zero (w : Nat) : nat_to_vec4 w 0 = List.replicate w bit4.b0 := by
  induction w with
  | zero => rfl
  | succ m ih => simp [nat_to_vec4, ih, List.replicate_succ]

lemma slot_size_of_kind {L : class_type} {pid : Nat} {k : property_kind}
    (hk : L.kinds[pid]? = some k) : slot_size L pid = k.instance_size := by
  rcases List.getElem?_eq_some.mp hk with ⟨hlt, hget⟩
  rw [slot_size, List.getD_eq_getElem _ _ (by simpa [size_list_length] using hlt)]
  simp only [size_list, List.getElem_map]
  rw [hget]

lemma kinds_lt_of_getElem {L : class_type} {pid : Nat} {k : property_kind}
    (hk : L.kinds[pid]? = some k) : pid < L.kinds.length :=
  (List.getElem?_eq_some.mp hk).1

/-- C4 (counterexample to the claim as stated): on a `UInt32` slot, the
all-concrete one-digit vector `[1]` does not round-trip: `get_vec4`
always produces a vector of the slot's full width 32, which is not
equal to the one-digit input. -/
theorem vec4_roundtrip_counterexample :
    [bit4.b1].all bit4.is_defined = true ∧
    (freeze_layout [property_kind.b32]).set_vec4
        (freeze_layout [property_kind.b32]).instance_new 0 [bit4.b1] =
      some [byte_v.num 1, byte_v.num 0, byte_v.num 0, byte_v.num 0] ∧
    (freeze_layout [property_kind.b32]).get_vec4
        [byte_v.num 1, byte_v.num 0, byte_v.num 0, byte_v.num 0] 0 =
      some (bit4.b1 :: List.replicate 31 bit4.b0) ∧
    some (bit4.b1 :: List.replicate 31 bit4.b0) ≠ some [bit4.b1] :=
  ⟨by decide, by decide, by decide, by decide⟩

/-- C4 (amended): for a `UInt32` slot of a frozen class and an instance
buffer of the class's size, `set_vec4` with a vector of the slot's bit
width 32 whose digits are all concrete, followed by `get_vec4` on the
same property id, returns a vector equal to the input. -/
theorem vec4_roundtrip (props : List (String × Option property_kind)) (L : class_type)
    (h : finish_setup props = some L) (pid : Nat)
    (hpid : L.kinds[pid]? = some property_kind.b32)
    (obj : List byte_v) (hlen : obj.length = L.instance_size)
    (v : List bit4) (hv : v.length = 32) (hconc : v.all bit4.is_defined = true) :
    ∃ buf', L.set_vec4 obj pid v = some buf' ∧ L.get_vec4 buf' pid = some v := by
  rcases finish_setup_some h with ⟨ks, -, rfl⟩
  have hval : vector4_to_value 32 v = some (vec4_val v) := by
    rw [vector4_to_value, if_pos hconc]
    congr 1
    exact Nat.mod_eq_of_lt (by simpa [hv] using vec4_val_lt v)
  have hlt : pid < ks.length := kinds_lt_of_getElem hpid
  have hsz : slot_size (freeze_layout ks) pid = 4 := slot_size_of_kind hpid
  have hrange := slot_range_le_instance_size ks hlt
  rw [hsz] at hrange
  refine ⟨write_bytes obj (slot_offset (freeze_layout ks) pid) (nat_to_bytes 4 (vec4_val v)),
    ?_, ?_⟩
  · simp only [class_type.set_vec4, hpid, property_set_vec4, property_kind.is_atom,
      property_kind.instance_size, if_true]
    rw [show (8 : Nat) * 4 = 32 from rfl, hval]
  · simp only [class_type.get_vec4, hpid, property_get_vec4, property_kind.is_atom,
      property_kind.instance_size, if_true]
    have hread : read_bytes
        (write_bytes obj (slot_offset (freeze_layout ks) pid) (nat_to_bytes 4 (vec4_val v)))
        (slot_offset (freeze_layout ks) pid) 4 = nat_to_bytes 4 (vec4_val v) := by
      have hfit : slot_offset (freeze_layout ks) pid + (nat_to_bytes 4 (vec4_val v)).length ≤
          obj.length := by
        rw [nat_to_bytes_length, hlen]
        exact hrange
      have := read_bytes_write_bytes_self (nat_to_bytes 4 (vec4_val v)) obj
        (slot_offset (freeze_layout ks) pid) hfit
      rwa [nat_to_bytes_length] at this
    rw [show (8 : Nat) * 4 = 32 from rfl, hread, bytes_to_num_nat_to_bytes]
    have hv4 : vec4_val v % 256 ^ 4 = vec4_val v :=
      Nat.mod_eq_of_lt (by
        have := vec4_val_lt v
        rw [hv] at this
        have h2 : (2 : Nat) ^ 32 = 256 ^ 4 := by norm_num
        omega)
    simp only [Option.map_some', hv4]
    rw [← hv, nat_to_vec4_vec4_val v hconc]

theorem vec4_roundtrip_witness :
    ∃ buf', (freeze_layout [property_kind.b32]).set_vec4
        [byte_v.num 0, byte_v.num 0, byte_v.num 0, byte_v.num 0] 0
        (bit4.b1 :: List.replicate 31 bit4.b0) = some buf' ∧
      (freeze_layout [property_kind.b32]).get_vec4 buf' 0 =
        some (bit4.b1 :: List.replicate 31 bit4.b0) :=
  vec4_roundtrip [("a", some property_kind.b32)] (freeze_layout [property_kind.b32])
    (by decide) 0 (by decide) [byte_v.num 0, byte_v.num 0, byte_v.num 0, byte_v.num 0]
    (by decide) (bit4.b1 :: List.replicate 31 bit4.b0) (by decide) (by decide)

/-- C5: `set_vec4` on an integer-kind slot with a vector containing at
least one X or Z digit is fatal — the conversion reports failure and
the `assert(flag)` aborts, never truncating or zero-filling. -/
theorem undefined_digit_fatal (L : class_type) (pid : Nat) (k : property_kind)
    (hk : L.kinds[pid]? = some k) (hatom : k.is_atom = true)
    (obj : List byte_v) (v : List bit4) (d : bit4) (hd : d ∈ v)
    (hxz : d = bit4.bx ∨ d = bit4.bz) :
    L.set_vec4 obj pid v = none := by
  have hall : v.all bit4.is_defined = false := by
    rw [List.all_eq_false]
    refine ⟨d, hd, ?_⟩
    rcases hxz with rfl | rfl <;> simp [bit4.is_defined]
  simp only [class_type.set_vec4, hk, property_set_vec4, hatom, if_true]
  rw [vector4_to_value, if_neg (by simp [hall])]

theorem undefined_digit_fatal_witness :
    (freeze_layout [property_kind.b32]).set_vec4
      [byte_v.num 0, byte_v.num 0, byte_v.num 0, byte_v.num 0] 0 [bit4.b1, bit4.bx] = none :=
  undefined_digit_fatal (freeze_layout [property_kind.b32]) 0 property_kind.b32 (by decide)
    (by decide) [byte_v.num 0, byte_v.num 0, byte_v.num 0, byte_v.num 0] [bit4.b1, bit4.bx]
    bit4.bx (by decide) (Or.inl rfl)

lemma property_set_vec4_unsupported (k : property_kind) (hk : k.is_atom = false)
    (off : Nat) (buf : List byte_v) (v : List bit4) :
    property_set_vec4 k off buf v = none := by
  simp [property_set_vec4, hk]

lemma property_get_vec4_unsupported (k : property_kind) (hk : k.is_atom = false)
    (off : Nat) (buf : List byte_v) :
    property_get_vec4 k off buf = none := by
  simp [property_get_vec4, hk]

lemma property_set_real_unsupported (k : property_kind) (hk : k ≠ property_kind.r)
    (off : Nat) (buf : List byte_v) (x : Nat) :
    property_set_real k off buf x = none := by
  cases k <;> simp_all [property_set_real]

lemma property_get_real_unsupported (k : property_kind) (hk : k ≠ property_kind.r)
    (off : Nat) (buf : List byte_v) :
    property_get_real k off buf = none := by
  cases k <;> simp_all [property_get_real]

lemma property_set_string_unsupported (k : property_kind) (hk : k ≠ property_kind.S)
    (off : Nat) (buf : List byte_v) (s : String) :
    property_set_string k off buf s = none := by
  cases k <;> simp_all [property_set_string]

lemma property_get_string_unsupported (k : property_kind) (hk : k ≠ property_kind.S)
    (off : Nat) (buf : List byte_v) :
    property_get_string k off buf = none := by
  cases k <;> simp_all [property_get_string]

lemma property_set_object_unsupported (k : property_kind) (hk : k ≠ property_kind.o)
    (off : Nat) (buf : List byte_v) (x : Nat) :
    property_set_object k off buf x = none := by
  cases k <;> simp_all [property_set_object]

lemma property_get_object_unsupported (k : property_kind) (hk : k ≠ property_kind.o)
    (off : Nat) (buf : List byte_v) :
    property_get_object k off buf = none := by
  cases k <;> simp_all [property_get_object]

/-- C6: invoking an accessor that a slot's kind does not support hits
the `assert(0)` default of `class_property_t` and is fatal — it never
returns a default or garbage value. -/
theorem kind_mismatch_fatal (L : class_type) (pid : Nat) (k : property_kind)
    (hk : L.kinds[pid]? = some k) (obj : List byte_v) (v : List bit4) (x : Nat)
    (s : String) (hd : Nat) :
    (k.is_atom = false → L.set_vec4 obj pid v = none ∧ L.get_vec4 obj pid = none) ∧
    (k ≠ property_kind.r → L.set_real obj pid x = none ∧ L.get_real obj pid = none) ∧
    (k ≠ property_kind.S → L.set_string obj pid s = none ∧ L.get_string obj pid = none) ∧
    (k ≠ property_kind.o → L.set_object obj pid hd = none ∧ L.get_object obj pid = none) := by
  refine ⟨fun h => ⟨?_, ?_⟩, fun h => ⟨?_, ?_⟩, fun h => ⟨?_, ?_⟩, fun h => ⟨?_, ?_⟩⟩
  · simp only [class_type.set_vec4, hk]
    exact property_set_vec4_unsupported k h _ _ _
  · simp only [class_type.get_vec4, hk]
    exact property_get_vec4_unsupported k h _ _
  · simp only [class_type.set_real, hk]
    exact property_set_real_unsupported k h _ _ _
  · simp only [class_type.get_real, hk]
    exact property_get_real_unsupported k h _ _
  · simp only [class_type.set_string, hk]
    exact property_set_string_unsupported k h _ _ _
  · simp only [class_type.get_string, hk]
    exact property_get_string_unsupported k h _ _
  · simp only [class_type.set_object, hk]
    exact property_set_object_unsupported k h _ _ _
  · simp only [class_type.get_object, hk]
    exact property_get_object_unsupported k h _ _

theorem kind_mismatch_fatal_witness :
    (freeze_layout [property_kind.b8]).get_real [byte_v.num 0] 0 = none ∧
    (freeze_layout [property_kind.S]).get_vec4
      (byte_v.str_obj "" :: List.replicate 31 byte_v.pad) 0 = none :=
  ⟨((kind_mismatch_fatal (freeze_layout [property_kind.b8]) 0 property_kind.b8 (by decide)
      [byte_v.num 0] [] 0 "" 0).2.1 (by decide)).2,
   ((kind_mismatch_fatal (freeze_layout [property_kind.S]) 0 property_kind.S (by decide)
      (byte_v.str_obj "" :: List.replicate 31 byte_v.pad) [] 0 "" 0).1 (by decide)).2⟩

lemma construct_bytes_length (k : property_kind) :
    (construct_bytes k).length = k.instance_size := by
  cases k <;> simp [construct_bytes, property_kind.is_atom, nat_to_bytes_length,
    property_kind.instance_size, string_instance_size, object_instance_size]

lemma construct_all_length (L : class_type) :
    ∀ (pids : List Nat) (buf : List byte_v),
      (construct_all L pids buf).length = buf.length := by
  intro pids
  induction pids with
  | nil => intro buf; rfl
  | cons x rest ih =>
    intro buf
    simp only [construct_all, ih, property_construct, write_bytes_length]

lemma construct_all_frame (L : class_type) :
    ∀ (pids : List Nat) (buf : List byte_v) (a : Nat),
      (∀ x ∈ pids, a < slot_offset L x ∨
        slot_offset L x + (construct_bytes (L.kinds.getD x property_kind.b8)).length ≤ a) →
      (construct_all L pids buf).getD a byte_v.uninit = buf.getD a byte_v.uninit := by
  intro pids
  induction pids with
  | nil => intro buf a _; rfl
  | cons x rest ih =>
    intro buf a ha
    simp only [construct_all]
    rw [ih _ a (fun y hy => ha y (List.mem_cons_of_mem x hy))]
    exact write_bytes_frame _ buf _ a (ha x (List.mem_cons_self _ _))

lemma freeze_layout_kinds (kinds : List property_kind) :
    (freeze_layout kinds).kinds = kinds := rfl

lemma getD_eq_of_getElem {kinds : List property_kind} {pid : Nat} {k : property_kind}
    (hk : kinds[pid]? = some k) : kinds.getD pid property_kind.b8 = k := by
  rcases List.getElem?_eq_some.mp hk with ⟨hlt, hget⟩
  rw [List.getD_eq_getElem _ _ hlt, hget]

lemma construct_bytes_length_slot (kinds : List property_kind) {x : Nat}
    (hx : x < kinds.length) :
    (construct_bytes (kinds.getD x property_kind.b8)).length =
      slot_size (freeze_layout kinds) x := by
  rw [construct_bytes_length, slot_size, List.getD_eq_getElem _ _ hx,
    List.getD_eq_getElem _ _ (by simpa [size_list_length] using hx)]
  simp only [freeze_layout_kinds, size_list, List.getElem_map]

lemma construct_all_region (kinds : List property_kind) :
    ∀ (pids : List Nat) (buf : List byte_v),
      pids.Nodup → (∀ x ∈ pids, x < kinds.length) →
      buf.length = (freeze_layout kinds).instance_size →
      ∀ pid ∈ pids,
        read_bytes (construct_all (freeze_layout kinds) pids buf)
            (slot_offset (freeze_layout kinds) pid) (slot_size (freeze_layout kinds) pid) =
          construct_bytes (kinds.getD pid property_kind.b8) := by
  intro pids
  induction pids with
  | nil => intro buf _ _ _ pid hmem; cases hmem
  | cons x rest ih =>
    intro buf hnd hlt hlen pid hmem
    have hx : x < kinds.length := hlt x (List.mem_cons_self _ _)
    simp only [construct_all, freeze_layout_kinds]
    rcases List.mem_cons.mp hmem with rfl | hmem2
    · have hstep : read_bytes
          (construct_all (freeze_layout kinds) rest
            (property_construct (kinds.getD pid property_kind.b8)
              (slot_offset (freeze_layout kinds) pid) buf))
          (slot_offset (freeze_layout kinds) pid) (slot_size (freeze_layout kinds) pid) =
          read_bytes
            (property_construct (kinds.getD pid property_kind.b8)
              (slot_offset (freeze_layout kinds) pid) buf)
            (slot_offset (freeze_layout kinds) pid) (slot_size (freeze_layout kinds) pid) := by
        apply read_bytes_congr
        intro a h1 h2
        apply construct_all_frame
        intro y hy
        simp only [freeze_layout_kinds]
        have hyn : y < kinds.length := hlt y (List.mem_cons_of_mem _ hy)
        have hynex : y ≠ pid := fun he => (List.nodup_cons.mp hnd).1 (he ▸ hy)
        rw [construct_bytes_length_slot kinds hyn]
        rcases slot_ranges_disjoint kinds hyn hx hynex with hdisj | hdisj
        · right
          omega
        · left
          omega
      rw [hstep]
      unfold property_construct
      have hfit : slot_offset (freeze_layout kinds) pid +
          (construct_bytes (kinds.getD pid property_kind.b8)).length ≤ buf.length := by
        rw [hlen, construct_bytes_length_slot kinds hx]
        exact slot_range_le_instance_size kinds hx
      have hrw := read_bytes_write_bytes_self
        (construct_bytes (kinds.getD pid property_kind.b8)) buf
        (slot_offset (freeze_layout kinds) pid) hfit
      rw [construct_bytes_length_slot kinds hx] at hrw
      exact hrw
    · apply ih
      · exact (List.nodup_cons.mp hnd).2
      · exact fun y hy => hlt y (List.mem_cons_of_mem _ hy)
      · rw [property_construct, write_bytes_length, hlen]
      · exact hmem2

lemma read_slot_congr (L : class_type) (b1 b2 : List byte_v) (q : Nat)
    (hagree : ∀ a : Nat, slot_offset L q ≤ a → a < slot_offset L q + slot_size L q →
      b1.getD a byte_v.uninit = b2.getD a byte_v.uninit) :
    L.read_slot b1 q = L.read_slot b2 q := by
  cases hk : L.kinds[q]? with
  | none => simp [class_type.read_slot, hk]
  | some k =>
    rw [slot_size_of_kind hk] at hagree
    have hread : ∀ len : Nat, len ≤ k.instance_size →
        read_bytes b1 (slot_offset L q) len = read_bytes b2 (slot_offset L q) len :=
      fun len hlen => read_bytes_congr len b1 b2 _ (fun a h1 h2 => hagree a h1 (by omega))
    have hpos : 1 ≤ k.instance_size := property_kind.instance_size_pos k
    have hgetD : b1.getD (slot_offset L q) byte_v.uninit =
        b2.getD (slot_offset L q) byte_v.uninit :=
      hagree _ (Nat.le_refl _) (by omega)
    by_cases hatom : k.is_atom = true
    · simp only [class_type.read_slot, hk, hatom, if_true]
      rw [property_get_vec4, property_get_vec4, if_pos hatom, if_pos hatom,
        hread k.instance_size (Nat.le_refl _)]
    · have hfalse : k.is_atom = false := by simpa using hatom
      cases k with
      | b8 => simp [property_kind.is_atom] at hfalse
      | b16 => simp [property_kind.is_atom] at hfalse
      | b32 => simp [property_kind.is_atom] at hfalse
      | b64 => simp [property_kind.is_atom] at hfalse
      | sb8 => simp [property_kind.is_atom] at hfalse
      | sb16 => simp [property_kind.is_atom] at hfalse
      | sb32 => simp [property_kind.is_atom] at hfalse
      | sb64 => simp [property_kind.is_atom] at hfalse
      | r =>
        simp only [class_type.read_slot, hk]
        rw [property_get_real, property_get_real, hread 8 (by decide), if_neg hatom, if_neg hatom]
      | S =>
        simp only [class_type.read_slot, hk]
        rw [property_get_string, property_get_string, hgetD, if_neg hatom, if_neg hatom]
      | o =>
        simp only [class_type.read_slot, hk]
        rw [property_get_object, property_get_object, hgetD, if_neg hatom, if_neg hatom]

/-- C9: `instance_new` on a frozen class allocates exactly
`instance_size` bytes and runs every slot's `construct` in declaration
order, after which an atomic integer slot reads back as the all-zero
vector, a real slot reads back as zero, and a Text slot reads back as
the empty string. -/
theorem instance_new_initializes (props : List (String × Option property_kind))
    (L : class_type) (h : finish_setup props = some L) (pid : Nat) (k : property_kind)
    (hk : L.kinds[pid]? = some k) :
    L.instance_new.length = L.instance_size ∧
    (k.is_atom = true → L.get_vec4 L.instance_new pid =
      some (List.replicate (8 * k.instance_size) bit4.b0)) ∧
    (k = property_kind.r → L.get_real L.instance_new pid = some 0) ∧
    (k = property_kind.S → L.get_string L.instance_new pid = some "") := by
  rcases finish_setup_some h with ⟨ks, -, rfl⟩
  have hlt : pid < ks.length := kinds_lt_of_getElem hk
  have hlen : (freeze_layout ks).instance_new.length = (freeze_layout ks).instance_size := by
    unfold class_type.instance_new
    rw [construct_all_length, List.length_replicate]
  have hregion : read_bytes (freeze_layout ks).instance_new
      (slot_offset (freeze_layout ks) pid) (slot_size (freeze_layout ks) pid) =
      construct_bytes k := by
    have hk2 : ks[pid]? = some k := hk
    have hr := construct_all_region ks (List.range ks.length)
      (List.replicate (freeze_layout ks).instance_size byte_v.uninit)
      (List.nodup_range _) (fun x hx => List.mem_range.mp hx)
      (List.length_replicate _ _) pid (List.mem_range.mpr hlt)
    rw [getD_eq_of_getElem hk2] at hr
    exact hr
  have hsz := slot_size_of_kind hk
  refine ⟨hlen, ?_, ?_, ?_⟩
  · intro hatom
    simp only [class_type.get_vec4, hk]
    rw [property_get_vec4, if_pos hatom]
    rw [hsz] at hregion
    rw [hregion]
    have hcb : construct_bytes k = nat_to_bytes k.instance_size 0 := by
      cases k <;> first | rfl | simp [property_kind.is_atom] at hatom
    rw [hcb, bytes_to_num_nat_to_bytes]
    simp only [Option.map_some', Nat.zero_mod]
    rw [nat_to_vec4_zero]
  · rintro rfl
    simp only [class_type.get_real, hk]
    rw [property_get_real]
    have h8 : slot_size (freeze_layout ks) pid = 8 := hsz
    rw [h8] at hregion
    rw [hregion]
    have hcb : construct_bytes property_kind.r = nat_to_bytes 8 0 := rfl
    rw [hcb, bytes_to_num_nat_to_bytes, Nat.zero_mod]
  · rintro rfl
    simp only [class_type.get_string, hk]
    rw [property_get_string]
    have h32 : slot_size (freeze_layout ks) pid = 31 + 1 := hsz
    rw [h32] at hregion
    rw [read_bytes] at hregion
    have hhead : (freeze_layout ks).instance_new.getD
        (slot_offset (freeze_layout ks) pid) byte_v.uninit = byte_v.str_obj "" := by
      have hcb : construct_bytes property_kind.S =
          byte_v.str_obj "" :: List.replicate (string_instance_size - 1) byte_v.pad := rfl
      rw [hcb] at hregion
      exact (List.cons.injEq _ _ _ _ ▸ hregion).1
    rw [hhead]

theorem instance_new_initializes_witness :
    (freeze_layout [property_kind.b8, property_kind.r, property_kind.S]).instance_new.length =
      (freeze_layout [property_kind.b8, property_kind.r, property_kind.S]).instance_size ∧
    (freeze_layout [property_kind.b8, property_kind.r, property_kind.S]).get_vec4
        (freeze_layout [property_kind.b8, property_kind.r, property_kind.S]).instance_new 0 =
      some (List.replicate (8 * property_kind.b8.instance_size) bit4.b0) ∧
    (freeze_layout [property_kind.b8, property_kind.r, property_kind.S]).get_real
        (freeze_layout [property_kind.b8, property_kind.r, property_kind.S]).instance_new 1 =
      some 0 ∧
    (freeze_layout [property_kind.b8, property_kind.r, property_kind.S]).get_string
        (freeze_layout [property_kind.b8, property_kind.r, property_kind.S]).instance_new 2 =
      some "" :=
  have ha := instance_new_initializes
    [("a", some property_kind.b8), ("b", some property_kind.r), ("c", some property_kind.S)]
    (freeze_layout [property_kind.b8, property_kind.r, property_kind.S]) (by decide)
    0 property_kind.b8 (by decide)
  have hb := instance_new_initializes
    [("a", some property_kind.b8), ("b", some property_kind.r), ("c", some property_kind.S)]
    (freeze_layout [property_kind.b8, property_kind.r, property_kind.S]) (by decide)
    1 property_kind.r (by decide)
  have hc := instance_new_initializes
    [("a", some property_kind.b8), ("b", some property_kind.r), ("c", some property_kind.S)]
    (freeze_layout [property_kind.b8, property_kind.r, property_kind.S]) (by decide)
    2 property_kind.S (by decide)
  ⟨ha.1, ha.2.1 (by decide), hb.2.2.1 rfl, hc.2.2.2 rfl⟩

lemma apply_set_shape (L : class_type) (obj : List byte_v) (pid : Nat) (op : set_op)
    (buf' : List byte_v) (h : L.apply_set obj pid op = some buf') :
    ∃ bs : List byte_v, bs.length = slot_size L pid ∧
      buf' = write_bytes obj (slot_offset L pid) bs ∧ pid < L.kinds.length := by
  cases op with
  | vec4 v =>
    simp only [class_type.apply_set, class_type.set_vec4] at h
    cases hk : L.kinds[pid]? with
    | none => rw [hk] at h; cases h
    | some k =>
      rw [hk] at h
      change property_set_vec4 k (slot_offset L pid) obj v = some buf' at h
      have hlt := kinds_lt_of_getElem hk
      by_cases hatom : k.is_atom = true
      · rw [property_set_vec4, if_pos hatom] at h
        cases hcv : vector4_to_value (8 * k.instance_size) v with
        | none => rw [hcv] at h; cases h
        | some val =>
          rw [hcv] at h
          refine ⟨nat_to_bytes k.instance_size val, ?_, ?_, hlt⟩
          · rw [nat_to_bytes_length, slot_size_of_kind hk]
          · exact (Option.some.injEq _ _ ▸ h).symm
      · rw [property_set_vec4_unsupported k (by simpa using hatom)] at h
        cases h
  | realv x =>
    simp only [class_type.apply_set, class_type.set_real] at h
    cases hk : L.kinds[pid]? with
    | none => rw [hk] at h; cases h
    | some k =>
      rw [hk] at h
      change property_set_real k (slot_offset L pid) obj x = some buf' at h
      have hlt := kinds_lt_of_getElem hk
      by_cases hkr : k = property_kind.r
      · subst hkr
        simp only [property_set_real, Option.some.injEq] at h
        refine ⟨nat_to_bytes 8 x, ?_, h.symm, hlt⟩
        rw [nat_to_bytes_length, slot_size_of_kind hk]
        rfl
      · rw [property_set_real_unsupported k hkr] at h
        cases h
  | strv s =>
    simp only [class_type.apply_set, class_type.set_string] at h
    cases hk : L.kinds[pid]? with
    | none => rw [hk] at h; cases h
    | some k =>
      rw [hk] at h
      change property_set_string k (slot_offset L pid) obj s = some buf' at h
      have hlt := kinds_lt_of_getElem hk
      by_cases hks : k = property_kind.S
      · subst hks
        simp only [property_set_string, Option.some.injEq] at h
        refine ⟨byte_v.str_obj s :: List.replicate (string_instance_size - 1) byte_v.pad,
          ?_, h.symm, hlt⟩
        rw [slot_size_of_kind hk]
        simp [string_instance_size, property_kind.instance_size]
      · rw [property_set_string_unsupported k hks] at h
        cases h
  | objv hd =>
    simp only [class_type.apply_set, class_type.set_object] at h
    cases hk : L.kinds[pid]? with
    | none => rw [hk] at h; cases h
    | some k =>
      rw [hk] at h
      change property_set_object k (slot_offset L pid) obj hd = some buf' at h
      have hlt := kinds_lt_of_getElem hk
      by_cases hko : k = property_kind.o
      · subst hko
        simp only [property_set_object, Option.some.injEq] at h
        refine ⟨byte_v.obj_obj hd :: List.replicate (object_instance_size - 1) byte_v.pad,
          ?_, h.symm, hlt⟩
        rw [slot_size_of_kind hk]
        simp [object_instance_size, property_kind.instance_size]
      · rw [property_set_object_unsupported k hko] at h
        cases h

/-- C10: a successful `set_*` accessor on a frozen class's property
`pid` modifies only bytes inside the slot's range
`[offset, offset + size)`; the value read through every other property
id is unchanged. -/
theorem accessor_frame_effect (props : List (String × Option property_kind))
    (L : class_type) (h : finish_setup props = some L) (obj : List byte_v) (pid : Nat)
    (op : set_op) (buf' : List byte_v) (hset : L.apply_set obj pid op = some buf') :
    (∀ a : Nat, a < slot_offset L pid ∨ slot_offset L pid + slot_size L pid ≤ a →
      buf'.getD a byte_v.uninit = obj.getD a byte_v.uninit) ∧
    (∀ q : Nat, q < L.kinds.length → q ≠ pid →
      L.read_slot buf' q = L.read_slot obj q) := by
  rcases finish_setup_some h with ⟨ks, -, rfl⟩
  rcases apply_set_shape _ _ _ _ _ hset with ⟨bs, hbs, rfl, hlt⟩
  have hframe : ∀ a : Nat, a < slot_offset (freeze_layout ks) pid ∨
      slot_offset (freeze_layout ks) pid + slot_size (freeze_layout ks) pid ≤ a →
      (write_bytes obj (slot_offset (freeze_layout ks) pid) bs).getD a byte_v.uninit =
        obj.getD a byte_v.uninit := by
    intro a ha
    exact write_bytes_frame bs obj _ a (by omega)
  refine ⟨hframe, ?_⟩
  intro q hq hqp
  apply read_slot_congr
  intro a h1 h2
  apply hframe
  rcases slot_ranges_disjoint ks hq hlt hqp with hd | hd
  · left
    omega
  · right
    omega

theorem accessor_frame_effect_witness :
    ((freeze_layout [property_kind.b8, property_kind.b32]).apply_set
        [byte_v.num 0, byte_v.num 0, byte_v.num 0, byte_v.num 0, byte_v.num 0] 1
        (set_op.vec4 (bit4.b1 :: bit4.b1 :: bit4.b1 :: List.replicate 29 bit4.b0)) =
      some [byte_v.num 7, byte_v.num 0, byte_v.num 0, byte_v.num 0, byte_v.num 0]) ∧
    [byte_v.num 7, byte_v.num 0, byte_v.num 0, byte_v.num 0, byte_v.num 0].getD 4
        byte_v.uninit =
      [byte_v.num 0, byte_v.num 0, byte_v.num 0, byte_v.num 0, byte_v.num 0].getD 4
        byte_v.uninit ∧
    (freeze_layout [property_kind.b8, property_kind.b32]).read_slot
        [byte_v.num 7, byte_v.num 0, byte_v.num 0, byte_v.num 0, byte_v.num 0] 0 =
      (freeze_layout [property_kind.b8, property_kind.b32]).read_slot
        [byte_v.num 0, byte_v.num 0, byte_v.num 0, byte_v.num 0, byte_v.num 0] 0 :=
  have hfe := accessor_frame_effect
    [("a", some property_kind.b8), ("b", some property_kind.b32)]
    (freeze_layout [property_kind.b8, property_kind.b32]) (by decide)
    [byte_v.num 0, byte_v.num 0, byte_v.num 0, byte_v.num 0, byte_v.num 0] 1
    (set_op.vec4 (bit4.b1 :: bit4.b1 :: bit4.b1 :: List.replicate 29 bit4.b0))
    [byte_v.num 7, byte_v.num 0, byte_v.num 0, byte_v.num 0, byte_v.num 0] (by decide)
  ⟨by decide, hfe.1 4 (by decide), hfe.2 0 (by decide) (by decide)⟩
